import Mathlib

/-!
Verification of `.github/scripts/match-rules.py`.

Shallow embedding: Python strings are modelled as `List Char`; the glob
compiler `glob_to_regex`, the frontmatter extractor
`parse_frontmatter_paths` / `strip_frontmatter`, and the rule matcher
`match_rules` are translated line by line from the source.  The Python
`re` module is modelled by a parser `compileRe` for the regex fragment
that `glob_to_regex` emits, plus an executable matcher `matchToks` whose
semantics follow Python `re`: a dot matches any character except a
newline, a negated character class matches any character not listed
(newlines included), and the end anchor accepts the end of the string or
the position just before a single trailing newline (`reFullMatch`).
-/

namespace MatchRules

abbrev Str := List Char

/-- Whitespace characters removed by Python `str.strip()` (ASCII range). -/
def isSpace (c : Char) : Bool :=
  c == ' ' || c == '\t' || c == '\n' || c == '\r' || c == '\x0b' || c == '\x0c'

/-- Python `str.strip()`: drop whitespace from both ends. -/
def stripWS (s : Str) : Str :=
  ((s.dropWhile isSpace).reverse.dropWhile isSpace).reverse

/-- Python `str.strip(q)` for a one-character argument `q`: drop every
leading and every trailing occurrence of `q` (not just one layer). -/
def pyStripChar (q : Char) (s : Str) : Str :=
  ((s.dropWhile (fun c => c == q)).reverse.dropWhile (fun c => c == q)).reverse

/-- Python `content.split("\n")`. -/
def splitLines : Str → List Str
  | [] => [[]]
  | c :: cs =>
    if c = '\n' then [] :: splitLines cs
    else
      match splitLines cs with
      | [] => [[c]]
      | l :: ls => (c :: l) :: ls

/-- Python `"\n".join(lines)`. -/
def joinLines : List Str → Str
  | [] => []
  | [l] => l
  | l :: ls => l ++ '\n' :: joinLines ls

/-- Python `text.lstrip("\n")`. -/
def lstripNL (s : Str) : Str := s.dropWhile (fun c => c == '\n')

/-- Python `stripped.startswith("- ")`. -/
def startsWithDash : Str → Bool
  | c1 :: c2 :: _ => c1 == '-' && c2 == ' '
  | _ => false

/-! ### The glob compiler (`glob_to_regex` in the source) -/

/-- The characters escaped by `glob_to_regex` (the Python source set is
the raw string of the twelve regex metacharacters: dot, plus, caret,
dollar, the two curly braces, the two parentheses, bar, backslash and
the two square brackets). -/
def isSpecial (c : Char) : Bool :=
  c == '.' || c == '+' || c == '^' || c == '$' || c == '\x7b' || c == '\x7d' ||
    c == '(' || c == ')' || c == '|' || c == '\\' || c == '[' || c == ']'

/-- The regex text produced for a glob pattern, without the surrounding
anchors: the character-by-character translation loop of `glob_to_regex`.
The `**/` arm emits the eight characters of the optional-directories
group, terminal or mid-token `**` emits dot-star, `*` emits the
single-segment class with a star, `?` emits the single-segment class,
special characters are backslash-escaped and everything else is copied. -/
def globBodyF : Nat → Str → Str
  | _, [] => []
  | 0, _ :: _ => []
  | fuel + 1, c :: rest =>
    if c = '*' then
      match rest with
      | c2 :: rest2 =>
        if c2 = '*' then
          match rest2 with
          | c3 :: rest3 =>
            if c3 = '/' then
              '(' :: '?' :: ':' :: '.' :: '+' :: '/' :: ')' :: '?' :: globBodyF fuel rest3
            else '.' :: '*' :: globBodyF fuel (c3 :: rest3)
          | [] => '.' :: '*' :: globBodyF fuel []
        else '[' :: '^' :: '/' :: ']' :: '*' :: globBodyF fuel (c2 :: rest2)
      | [] => '[' :: '^' :: '/' :: ']' :: '*' :: globBodyF fuel []
    else if c = '?' then '[' :: '^' :: '/' :: ']' :: globBodyF fuel rest
    else if isSpecial c then '\\' :: c :: globBodyF fuel rest
    else c :: globBodyF fuel rest

/-- The translation loop applied to a whole pattern.  The fuel argument
of `globBodyF` only bounds the recursion depth; the loop consumes at
least one character per step, so the pattern length is always enough
fuel and the zero-fuel arm is never reached. -/
def globBody (s : Str) : Str := globBodyF s.length s

/-- `glob_to_regex` from the source: the translated body, anchored with a
leading caret and a trailing dollar. -/
def glob_to_regex (p : Str) : Str := '^' :: (globBody p ++ [ '$' ])

/-- Tokens of the regex fragment emitted by `glob_to_regex`. -/
inductive Tok where
  | anyDirs : Tok
  | anyAll : Tok
  | anySeg : Tok
  | oneSeg : Tok
  | lit : Char → Tok
deriving DecidableEq, Repr

/-- Regex metacharacters that may not stand bare in the emitted fragment:
a conforming regex compiler does not read them as literal characters. -/
def isMeta (c : Char) : Bool :=
  c == '.' || c == '^' || c == '$' || c == '*' || c == '+' || c == '?' ||
    c == '(' || c == ')' || c == '[' || c == ']' || c == '\x7b' || c == '\x7d' ||
    c == '|' || c == '\\'

/-- Parser for the regex fragment emitted by `glob_to_regex` (the model of
`re.compile` on that fragment): recognises the optional-directories
group, the single-segment class with and without a star, dot-star,
backslash escapes and literal characters; any bare metacharacter is a
compilation failure. -/
def parseBodyF : Nat → Str → Option (List Tok)
  | _, [] => some []
  | 0, _ :: _ => none
  | fuel + 1, c :: rest =>
    if c = '(' then
      if rest.take 7 = "?:.+/)?".data then
        (parseBodyF fuel (rest.drop 7)).map (fun ts => Tok.anyDirs :: ts)
      else none
    else if c = '[' then
      if rest.take 4 = "^/]*".data then
        (parseBodyF fuel (rest.drop 4)).map (fun ts => Tok.anySeg :: ts)
      else if rest.take 3 = "^/]".data then
        (parseBodyF fuel (rest.drop 3)).map (fun ts => Tok.oneSeg :: ts)
      else none
    else if c = '.' then
      if rest.take 1 = [ '*' ] then
        (parseBodyF fuel (rest.drop 1)).map (fun ts => Tok.anyAll :: ts)
      else none
    else if c = '\\' then
      match rest with
      | c1 :: rest2 => (parseBodyF fuel rest2).map (fun ts => Tok.lit c1 :: ts)
      | [] => none
    else if isMeta c then none
    else (parseBodyF fuel rest).map (fun ts => Tok.lit c :: ts)

/-- The regex-fragment parser applied to a whole string.  The fuel
argument of `parseBodyF` only bounds the recursion depth; every step
consumes at least one character, so the string length is always enough
fuel and the zero-fuel arm is never reached. -/
def parseBody (s : Str) : Option (List Tok) := parseBodyF s.length s

/-- Model of `re.compile` on the anchored output of `glob_to_regex`:
expects a leading caret and a trailing dollar and parses the body. -/
def compileRe : Str → Option (List Tok)
  | c :: rest =>
      if c = '^' ∧ rest.getLast? = some '$' then parseBody rest.dropLast else none
  | [] => none

/-- The token-level translation of a glob pattern (same recursion as
`globBody`, producing tokens instead of regex text). -/
def globToksF : Nat → Str → List Tok
  | _, [] => []
  | 0, _ :: _ => []
  | fuel + 1, c :: rest =>
    if c = '*' then
      match rest with
      | c2 :: rest2 =>
        if c2 = '*' then
          match rest2 with
          | c3 :: rest3 =>
            if c3 = '/' then Tok.anyDirs :: globToksF fuel rest3
            else Tok.anyAll :: globToksF fuel (c3 :: rest3)
          | [] => Tok.anyAll :: globToksF fuel []
        else Tok.anySeg :: globToksF fuel (c2 :: rest2)
      | [] => Tok.anySeg :: globToksF fuel []
    else if c = '?' then Tok.oneSeg :: globToksF fuel rest
    else Tok.lit c :: globToksF fuel rest

/-- The token-level translation applied to a whole pattern (fuel as in
`globBodyF`). -/
def globToks (s : Str) : List Tok := globToksF s.length s

/-- Backtracking matcher for a token list against a whole string, with
Python `re` character semantics: `anyDirs` (the optional-directories
group) matches nothing or at least one non-newline character followed by
a slash; `anyAll` (dot-star) matches any run of non-newline characters;
`anySeg` matches any run of non-slash characters; `oneSeg` matches one
non-slash character; `lit c` matches exactly `c`. -/
def matchToks : List Tok → Str → Bool
  | [], s => s.isEmpty
  | Tok.lit c :: ts, s =>
      match s with
      | [] => false
      | x :: s2 => (x == c) && matchToks ts s2
  | Tok.oneSeg :: ts, s =>
      match s with
      | [] => false
      | x :: s2 => !(x == '/') && matchToks ts s2
  | Tok.anySeg :: ts, s =>
      (List.range (s.length + 1)).any fun k =>
        (s.take k).all (fun c => !(c == '/')) && matchToks ts (s.drop k)
  | Tok.anyAll :: ts, s =>
      (List.range (s.length + 1)).any fun k =>
        (s.take k).all (fun c => !(c == '\n')) && matchToks ts (s.drop k)
  | Tok.anyDirs :: ts, s =>
      matchToks ts s ||
        (List.range (s.length + 1)).any fun k =>
          !(k == 0) && (s.take k).all (fun c => !(c == '\n')) &&
            ((s.drop k).head? == some '/') && matchToks ts (s.drop (k + 1))

/-- Whole-string acceptance including the Python end-anchor rule: the
dollar anchor also matches just before a single newline that ends the
string. -/
def reFullMatch (ts : List Tok) (s : Str) : Bool :=
  matchToks ts s || ((s.getLast? == some '\n') && matchToks ts s.dropLast)

/-- `re.compile(glob_to_regex(pattern))` followed by `.match(f)` as used
in `match_rules`: the compiled matcher for a glob pattern applied to one
candidate path. -/
def accepts (p : Str) (f : Str) : Bool :=
  match compileRe (glob_to_regex p) with
  | some ts => reFullMatch ts f
  | none => false

/-! ### The frontmatter extractor -/

/-- The pattern extracted from a stripped list-item line in the source:
`stripped[2:].strip().strip(doublequote).strip(singlequote)`. -/
def extractPattern (stripped : Str) : Str :=
  pyStripChar '\x27' (pyStripChar '"' (stripWS (stripped.drop 2)))

/-- The scanning loop of `parse_frontmatter_paths` over the lines after
the opening delimiter, with the collecting flag `inPaths`; returns the
patterns contributed from this point on.  A closing delimiter stops the
scan; a line equal to the paths key switches collecting on; in
collecting mode a list item contributes a pattern and any other
non-empty line stops the scan. -/
def parseLoop : List Str → Bool → List Str
  | [], _ => []
  | line :: rest, inPaths =>
    if stripWS line = "---".data then []
    else if stripWS line = "paths:".data then parseLoop rest true
    else if inPaths && startsWithDash (stripWS line) then
      extractPattern (stripWS line) :: parseLoop rest inPaths
    else if inPaths && !(stripWS line).isEmpty && !startsWithDash (stripWS line) then []
    else parseLoop rest inPaths

/-- `parse_frontmatter_paths` from the source. -/
def parse_frontmatter_paths (content : Str) : List Str :=
  match splitLines content with
  | [] => []
  | first :: rest =>
    if stripWS first = "---".data then parseLoop rest false else []

/-- The scan of `strip_frontmatter` over the lines after the opening
delimiter: the lines strictly after the first line that strips to the
closing delimiter, if any. -/
def findClose : List Str → Option (List Str)
  | [] => none
  | line :: rest =>
    if stripWS line = "---".data then some rest else findClose rest

/-- `strip_frontmatter` from the source. -/
def strip_frontmatter (content : Str) : Str :=
  match splitLines content with
  | [] => content
  | first :: rest =>
    if stripWS first = "---".data then
      match findClose rest with
      | some after => lstripNL (joinLines after)
      | none => content
    else content

/-! ### The rule matcher -/

/-- `match_rules` from the source.  The directory listing (the sorted
`*.md` files and their contents) is abstracted as the input association
list `rules` of (file path, file content) pairs; everything else follows
the source: documents with an empty pattern list are skipped, a document
matches when some declared pattern accepts some changed file (the two
short-circuiting loops), and a matching document contributes its path
paired with its frontmatter-stripped body. -/
def match_rules (changed : List Str) : List (Str × Str) → List (Str × Str)
  | [] => []
  | (name, content) :: rest =>
    let paths := parse_frontmatter_paths content
    if paths.isEmpty then match_rules changed rest
    else if paths.any (fun p => changed.any (fun f => accepts p f)) then
      (name, strip_frontmatter content) :: match_rules changed rest
    else match_rules changed rest

/-! ### Definitions written from the specification text (for comparison) -/

/-- Modelled from the spec claim wording: strip at most one leading quote
character and at most one trailing quote character (double or single,
independently) from a string. -/
def oneLayerQuoteTrim (s : Str) : Str :=
  let s1 :=
    match s with
    | c :: r => if c = '"' ∨ c = '\x27' then r else c :: r
    | [] => []
  match s1.getLast? with
  | some c => if c = '"' ∨ c = '\x27' then s1.dropLast else s1
  | none => s1

/-- Modelled from the spec wording for body extraction: if the first
stripped line is the delimiter and some later line strips to the
delimiter, the body is the join of the lines strictly after the first
such closing line, with leading newline characters removed; otherwise
the original text is returned unchanged.  The first closing line is
located by dropping lines while they do not strip to the delimiter. -/
def specStripFM (content : Str) : Str :=
  match splitLines content with
  | [] => content
  | first :: rest =>
    if stripWS first = "---".data then
      match rest.dropWhile (fun l => !(stripWS l == "---".data)) with
      | [] => content
      | _ :: after => lstripNL (joinLines after)
    else content

/-! ### Lemmas about the glob compiler and the regex parser -/

lemma globBodyF_fuel (n : Nat) : ∀ (m : Nat) (s : Str), s.length ≤ n → s.length ≤ m →
    globBodyF n s = globBodyF m s := by
  induction n with
  | zero =>
    intro m s h1 _
    have hs : s = [] := List.eq_nil_of_length_eq_zero (Nat.le_zero.mp h1)
    subst hs
    cases m <;> rfl
  | succ n ih =>
    intro m s h1 h2
    cases s with
    | nil => cases m <;> rfl
    | cons c rest =>
      cases m with
      | zero => simp at h2
      | succ m' =>
        rcases rest with _ | ⟨c2, rest2⟩
        · simp [globBodyF]
        · rcases rest2 with _ | ⟨c3, rest3⟩
          · simp only [globBodyF]
            split_ifs <;>
              simp only [List.cons.injEq, eq_self_iff_true, true_and] <;>
              exact ih _ _ (by simp_all only [List.length_cons, List.length_nil]; omega)
                (by simp_all only [List.length_cons, List.length_nil]; omega)
          · simp only [globBodyF]
            split_ifs <;>
              simp only [List.cons.injEq, eq_self_iff_true, true_and] <;>
              exact ih _ _ (by simp_all only [List.length_cons, List.length_nil]; omega)
                (by simp_all only [List.length_cons, List.length_nil]; omega)

lemma globToksF_fuel (n : Nat) : ∀ (m : Nat) (s : Str), s.length ≤ n → s.length ≤ m →
    globToksF n s = globToksF m s := by
  induction n with
  | zero =>
    intro m s h1 _
    have hs : s = [] := List.eq_nil_of_length_eq_zero (Nat.le_zero.mp h1)
    subst hs
    cases m <;> rfl
  | succ n ih =>
    intro m s h1 h2
    cases s with
    | nil => cases m <;> rfl
    | cons c rest =>
      cases m with
      | zero => simp at h2
      | succ m' =>
        rcases rest with _ | ⟨c2, rest2⟩
        · simp [globToksF]
        · rcases rest2 with _ | ⟨c3, rest3⟩
          · simp only [globToksF]
            split_ifs <;>
              simp only [List.cons.injEq, eq_self_iff_true, true_and] <;>
              exact ih _ _ (by simp_all only [List.length_cons, List.length_nil]; omega)
                (by simp_all only [List.length_cons, List.length_nil]; omega)
          · simp only [globToksF]
            split_ifs <;>
              simp only [List.cons.injEq, eq_self_iff_true, true_and] <;>
              exact ih _ _ (by simp_all only [List.length_cons, List.length_nil]; omega)
                (by simp_all only [List.length_cons, List.length_nil]; omega)

lemma parseBodyF_fuel (n : Nat) : ∀ (m : Nat) (s : Str), s.length ≤ n → s.length ≤ m →
    parseBodyF n s = parseBodyF m s := by
  induction n with
  | zero =>
    intro m s h1 _
    have hs : s = [] := List.eq_nil_of_length_eq_zero (Nat.le_zero.mp h1)
    subst hs
    cases m <;> rfl
  | succ n ih =>
    intro m s h1 h2
    cases s with
    | nil => cases m <;> rfl
    | cons c rest =>
      cases m with
      | zero => simp at h2
      | succ m' =>
        rcases rest with _ | ⟨c2, rest2⟩
        · simp [parseBodyF]
        · simp only [parseBodyF]
          split_ifs <;>
            first
              | rfl
              | (refine congrArg _ (ih _ _ ?_ ?_) <;>
                  (simp_all only [List.length_cons, List.length_nil, List.length_drop]; omega))

lemma gbF_dirs (n : Nat) (r : Str) : globBodyF (n + 1) ('*' :: '*' :: '/' :: r) =
    '(' :: '?' :: ':' :: '.' :: '+' :: '/' :: ')' :: '?' :: globBodyF n r := rfl

lemma gbF_ss (n : Nat) (d : Char) (r : Str) (hd : d ≠ '/') :
    globBodyF (n + 1) ('*' :: '*' :: d :: r) = '.' :: '*' :: globBodyF n (d :: r) := by
  simp only [globBodyF]
  simp [hd]

lemma gbF_star (n : Nat) (d : Char) (r : Str) (hd : d ≠ '*') :
    globBodyF (n + 1) ('*' :: d :: r) = '[' :: '^' :: '/' :: ']' :: '*' :: globBodyF n (d :: r) := by
  simp only [globBodyF]
  simp [hd]

lemma gbF_q (n : Nat) (r : Str) : globBodyF (n + 1) ('?' :: r) =
    '[' :: '^' :: '/' :: ']' :: globBodyF n r := rfl

lemma gbF_lit (n : Nat) (c : Char) (r : Str) (h1 : c ≠ '*') (h2 : c ≠ '?') :
    globBodyF (n + 1) (c :: r) = (if isSpecial c then ['\\', c] else [c]) ++ globBodyF n r := by
  simp only [globBodyF]
  simp [h1, h2]
  split_ifs <;> simp

lemma gb_dirs (r : Str) : globBody ('*' :: '*' :: '/' :: r) =
    '(' :: '?' :: ':' :: '.' :: '+' :: '/' :: ')' :: '?' :: globBody r := by
  show globBodyF (r.length + 1 + 1 + 1) ('*' :: '*' :: '/' :: r) = _
  rw [gbF_dirs]
  exact congrArg (fun x => '(' :: '?' :: ':' :: '.' :: '+' :: '/' :: ')' :: '?' :: x)
    (globBodyF_fuel (r.length + 1 + 1) r.length r (by omega) (le_refl _))

lemma gb_ss (r : Str) (h : r.head? ≠ some '/') :
    globBody ('*' :: '*' :: r) = '.' :: '*' :: globBody r := by
  cases r with
  | nil => rfl
  | cons d r2 =>
    have hd : d ≠ '/' := fun hcontra => h (by simp [hcontra])
    show globBodyF (r2.length + 1 + 1 + 1) ('*' :: '*' :: d :: r2) = _
    rw [gbF_ss _ _ _ hd]
    exact congrArg (fun x => '.' :: '*' :: x)
      (globBodyF_fuel (r2.length + 1 + 1) (r2.length + 1) (d :: r2)
        (by simp only [List.length_cons]; omega) (by simp only [List.length_cons]; omega))

lemma gb_star (r : Str) (h : r.head? ≠ some '*') :
    globBody ('*' :: r) = '[' :: '^' :: '/' :: ']' :: '*' :: globBody r := by
  cases r with
  | nil => rfl
  | cons d r2 =>
    have hd : d ≠ '*' := fun hcontra => h (by simp [hcontra])
    show globBodyF (r2.length + 1 + 1) ('*' :: d :: r2) = _
    rw [gbF_star _ _ _ hd]
    rfl

lemma gb_q (r : Str) : globBody ('?' :: r) = '[' :: '^' :: '/' :: ']' :: globBody r := by
  show globBodyF (r.length + 1) ('?' :: r) = _
  rw [gbF_q]
  rfl

lemma gb_lit (c : Char) (r : Str) (h1 : c ≠ '*') (h2 : c ≠ '?') :
    globBody (c :: r) = (if isSpecial c then ['\\', c] else [c]) ++ globBody r := by
  show globBodyF (r.length + 1) (c :: r) = _
  rw [gbF_lit _ _ _ h1 h2]
  rfl

lemma gtF_dirs (n : Nat) (r : Str) : globToksF (n + 1) ('*' :: '*' :: '/' :: r) =
    Tok.anyDirs :: globToksF n r := rfl

lemma gtF_ss (n : Nat) (d : Char) (r : Str) (hd : d ≠ '/') :
    globToksF (n + 1) ('*' :: '*' :: d :: r) = Tok.anyAll :: globToksF n (d :: r) := by
  simp only [globToksF]
  simp [hd]

lemma gtF_star (n : Nat) (d : Char) (r : Str) (hd : d ≠ '*') :
    globToksF (n + 1) ('*' :: d :: r) = Tok.anySeg :: globToksF n (d :: r) := by
  simp only [globToksF]
  simp [hd]

lemma gtF_q (n : Nat) (r : Str) : globToksF (n + 1) ('?' :: r) =
    Tok.oneSeg :: globToksF n r := rfl

lemma gtF_lit (n : Nat) (c : Char) (r : Str) (h1 : c ≠ '*') (h2 : c ≠ '?') :
    globToksF (n + 1) (c :: r) = Tok.lit c :: globToksF n r := by
  simp only [globToksF]
  simp [h1, h2]

lemma gt_dirs (r : Str) : globToks ('*' :: '*' :: '/' :: r) = Tok.anyDirs :: globToks r := by
  show globToksF (r.length + 1 + 1 + 1) ('*' :: '*' :: '/' :: r) = _
  rw [gtF_dirs]
  exact congrArg (fun x => Tok.anyDirs :: x)
    (globToksF_fuel (r.length + 1 + 1) r.length r (by omega) (le_refl _))

lemma gt_ss (r : Str) (h : r.head? ≠ some '/') :
    globToks ('*' :: '*' :: r) = Tok.anyAll :: globToks r := by
  cases r with
  | nil => rfl
  | cons d r2 =>
    have hd : d ≠ '/' := fun hcontra => h (by simp [hcontra])
    show globToksF (r2.length + 1 + 1 + 1) ('*' :: '*' :: d :: r2) = _
    rw [gtF_ss _ _ _ hd]
    exact congrArg (fun x => Tok.anyAll :: x)
      (globToksF_fuel (r2.length + 1 + 1) (r2.length + 1) (d :: r2)
        (by simp only [List.length_cons]; omega) (by simp only [List.length_cons]; omega))

lemma gt_star (r : Str) (h : r.head? ≠ some '*') :
    globToks ('*' :: r) = Tok.anySeg :: globToks r := by
  cases r with
  | nil => rfl
  | cons d r2 =>
    have hd : d ≠ '*' := fun hcontra => h (by simp [hcontra])
    show globToksF (r2.length + 1 + 1) ('*' :: d :: r2) = _
    rw [gtF_star _ _ _ hd]
    rfl

lemma gt_q (r : Str) : globToks ('?' :: r) = Tok.oneSeg :: globToks r := by
  show globToksF (r.length + 1) ('?' :: r) = _
  rw [gtF_q]
  rfl

lemma gt_lit (c : Char) (r : Str) (h1 : c ≠ '*') (h2 : c ≠ '?') :
    globToks (c :: r) = Tok.lit c :: globToks r := by
  show globToksF (r.length + 1) (c :: r) = _
  rw [gtF_lit _ _ _ h1 h2]
  rfl

lemma pbF_dirs (n : Nat) (r : Str) :
    parseBodyF (n + 1) ('(' :: '?' :: ':' :: '.' :: '+' :: '/' :: ')' :: '?' :: r) =
      (parseBodyF n r).map (fun ts => Tok.anyDirs :: ts) := rfl

lemma pbF_seg (n : Nat) (r : Str) :
    parseBodyF (n + 1) ('[' :: '^' :: '/' :: ']' :: '*' :: r) =
      (parseBodyF n r).map (fun ts => Tok.anySeg :: ts) := rfl

lemma pbF_one (n : Nat) (d : Char) (r : Str) (hd : d ≠ '*') :
    parseBodyF (n + 1) ('[' :: '^' :: '/' :: ']' :: d :: r) =
      (parseBodyF n (d :: r)).map (fun ts => Tok.oneSeg :: ts) := by
  simp only [parseBodyF]
  rw [if_neg (by decide), if_true,
    show ('^' :: '/' :: ']' :: d :: r).take 4 = ['^', '/', ']', d] from rfl,
    if_neg (by simp [hd]),
    show ('^' :: '/' :: ']' :: d :: r).take 3 = ['^', '/', ']'] from rfl, if_pos rfl]
  rfl

lemma pbF_all (n : Nat) (r : Str) :
    parseBodyF (n + 1) ('.' :: '*' :: r) = (parseBodyF n r).map (fun ts => Tok.anyAll :: ts) := rfl

lemma pbF_esc (n : Nat) (c : Char) (r : Str) :
    parseBodyF (n + 1) ('\\' :: c :: r) = (parseBodyF n r).map (fun ts => Tok.lit c :: ts) := rfl

lemma pbF_litc (n : Nat) (c : Char) (r : Str) (h1 : c ≠ '(') (h2 : c ≠ '[') (h3 : c ≠ '.')
    (h4 : c ≠ '\\') (h5 : isMeta c = false) :
    parseBodyF (n + 1) (c :: r) = (parseBodyF n r).map (fun ts => Tok.lit c :: ts) := by
  simp only [parseBodyF]
  rw [if_neg h1, if_neg h2, if_neg h3, if_neg h4, if_neg (by simp [h5])]

lemma pb_dirs (r : Str) :
    parseBody ('(' :: '?' :: ':' :: '.' :: '+' :: '/' :: ')' :: '?' :: r) =
      (parseBody r).map (fun ts => Tok.anyDirs :: ts) := by
  show parseBodyF (r.length + 1 + 1 + 1 + 1 + 1 + 1 + 1 + 1)
    ('(' :: '?' :: ':' :: '.' :: '+' :: '/' :: ')' :: '?' :: r) = _
  rw [pbF_dirs]
  exact congrArg (Option.map (fun ts => Tok.anyDirs :: ts))
    (parseBodyF_fuel (r.length + 1 + 1 + 1 + 1 + 1 + 1 + 1) r.length r (by omega) (le_refl _))

lemma pb_seg (r : Str) :
    parseBody ('[' :: '^' :: '/' :: ']' :: '*' :: r) =
      (parseBody r).map (fun ts => Tok.anySeg :: ts) := by
  show parseBodyF (r.length + 1 + 1 + 1 + 1 + 1) ('[' :: '^' :: '/' :: ']' :: '*' :: r) = _
  rw [pbF_seg]
  exact congrArg (Option.map (fun ts => Tok.anySeg :: ts))
    (parseBodyF_fuel (r.length + 1 + 1 + 1 + 1) r.length r (by omega) (le_refl _))

lemma pb_one (r : Str) (h : r.head? ≠ some '*') :
    parseBody ('[' :: '^' :: '/' :: ']' :: r) = (parseBody r).map (fun ts => Tok.oneSeg :: ts) := by
  cases r with
  | nil => rfl
  | cons d r2 =>
    have hd : d ≠ '*' := fun hcontra => h (by simp [hcontra])
    show parseBodyF (r2.length + 1 + 1 + 1 + 1 + 1) ('[' :: '^' :: '/' :: ']' :: d :: r2) = _
    rw [pbF_one _ _ _ hd]
    exact congrArg (Option.map (fun ts => Tok.oneSeg :: ts))
      (parseBodyF_fuel (r2.length + 1 + 1 + 1 + 1) (r2.length + 1) (d :: r2)
        (by simp only [List.length_cons]; omega) (by simp only [List.length_cons]; omega))

lemma pb_all (r : Str) :
    parseBody ('.' :: '*' :: r) = (parseBody r).map (fun ts => Tok.anyAll :: ts) := by
  show parseBodyF (r.length + 1 + 1) ('.' :: '*' :: r) = _
  rw [pbF_all]
  exact congrArg (Option.map (fun ts => Tok.anyAll :: ts))
    (parseBodyF_fuel (r.length + 1) r.length r (by omega) (le_refl _))

lemma pb_esc (c : Char) (r : Str) :
    parseBody ('\\' :: c :: r) = (parseBody r).map (fun ts => Tok.lit c :: ts) := by
  show parseBodyF (r.length + 1 + 1) ('\\' :: c :: r) = _
  rw [pbF_esc]
  exact congrArg (Option.map (fun ts => Tok.lit c :: ts))
    (parseBodyF_fuel (r.length + 1) r.length r (by omega) (le_refl _))

lemma pb_litc (c : Char) (r : Str) (h1 : c ≠ '(') (h2 : c ≠ '[') (h3 : c ≠ '.')
    (h4 : c ≠ '\\') (h5 : isMeta c = false) :
    parseBody (c :: r) = (parseBody r).map (fun ts => Tok.lit c :: ts) := by
  show parseBodyF (r.length + 1) (c :: r) = _
  rw [pbF_litc _ _ _ h1 h2 h3 h4 h5]
  rfl

lemma globBody_head_ne_star (p : Str) : (globBody p).head? ≠ some '*' := by
  rcases p with _ | ⟨c, rest⟩
  · decide
  · by_cases hc : c = '*'
    · subst hc
      rcases rest with _ | ⟨c2, rest2⟩
      · decide
      · by_cases hc2 : c2 = '*'
        · subst hc2
          rcases rest2 with _ | ⟨c3, rest3⟩
          · decide
          · by_cases hc3 : c3 = '/'
            · subst hc3
              rw [gb_dirs]
              simp
            · rw [gb_ss _ (by simp [hc3])]
              simp
        · rw [gb_star _ (by simp [hc2])]
          simp
    · by_cases hq : c = '?'
      · subst hq
        rw [gb_q]
        simp
      · rw [gb_lit _ _ hc hq]
        split_ifs <;> simp_all

lemma not_special_ne (c : Char) (hs : isSpecial c = false) :
    c ≠ '(' ∧ c ≠ '[' ∧ c ≠ '.' ∧ c ≠ '\\' := by
  refine ⟨?_, ?_, ?_, ?_⟩ <;> (intro h; subst h; simp [isSpecial] at hs)

lemma not_special_meta (c : Char) (hs : isSpecial c = false) (h1 : c ≠ '*') (h2 : c ≠ '?') :
    isMeta c = false := by
  simp only [isSpecial, Bool.or_eq_false_iff, beq_eq_false_iff_ne] at hs
  simp only [isMeta, Bool.or_eq_false_iff, beq_eq_false_iff_ne]
  tauto

lemma parse_glob_aux : ∀ (n : Nat) (p : Str), p.length ≤ n →
    parseBody (globBody p) = some (globToks p) := by
  intro n
  induction n with
  | zero =>
    intro p hp
    have hs : p = [] := List.eq_nil_of_length_eq_zero (Nat.le_zero.mp hp)
    subst hs
    rfl
  | succ n ih =>
    intro p hp
    rcases p with _ | ⟨c, rest⟩
    · rfl
    · by_cases hc : c = '*'
      · subst hc
        rcases rest with _ | ⟨c2, rest2⟩
        · decide
        · by_cases hc2 : c2 = '*'
          · subst hc2
            rcases rest2 with _ | ⟨c3, rest3⟩
            · decide
            · by_cases hc3 : c3 = '/'
              · subst hc3
                rw [gb_dirs, gt_dirs, pb_dirs,
                  ih rest3 (by simp_all only [List.length_cons]; omega)]
                rfl
              · rw [gb_ss _ (by simp [hc3]), gt_ss _ (by simp [hc3]), pb_all,
                  ih (c3 :: rest3) (by simp_all only [List.length_cons]; omega)]
                rfl
          · rw [gb_star _ (by simp [hc2]), gt_star _ (by simp [hc2]), pb_seg,
              ih (c2 :: rest2) (by simp_all only [List.length_cons]; omega)]
            rfl
      · by_cases hq : c = '?'
        · subst hq
          rw [gb_q, gt_q, pb_one _ (globBody_head_ne_star rest),
            ih rest (by simp_all only [List.length_cons]; omega)]
          rfl
        · rw [gb_lit _ _ hc hq, gt_lit _ _ hc hq]
          by_cases hsp : isSpecial c = true
          · rw [if_pos hsp]
            show parseBody ('\\' :: c :: globBody rest) = _
            rw [pb_esc, ih rest (by simp_all only [List.length_cons]; omega)]
            rfl
          · have hsf : isSpecial c = false := by simpa using hsp
            obtain ⟨n1, n2, n3, n4⟩ := not_special_ne c hsf
            rw [if_neg hsp]
            show parseBody (c :: globBody rest) = _
            rw [pb_litc _ _ n1 n2 n3 n4 (not_special_meta c hsf hc hq),
              ih rest (by simp_all only [List.length_cons]; omega)]
            rfl

lemma parse_glob (p : Str) : parseBody (globBody p) = some (globToks p) :=
  parse_glob_aux p.length p (le_refl _)

lemma compileRe_glob (p : Str) : compileRe (glob_to_regex p) = some (globToks p) := by
  simp only [glob_to_regex, compileRe]
  rw [if_pos (by simp [List.getLast?_concat]), List.dropLast_concat]
  exact parse_glob p

lemma accepts_eq (p f : Str) : accepts p f = reFullMatch (globToks p) f := by
  simp only [accepts, compileRe_glob]

/-! ### Lemmas about the token matcher -/

lemma matchToks_lits (xs : List Char) : ∀ s : Str, matchToks (xs.map Tok.lit) s = true ↔ s = xs := by
  induction xs with
  | nil => intro s; cases s <;> simp [matchToks]
  | cons c t ih =>
    intro s
    cases s with
    | nil => simp [matchToks]
    | cons x s2 => simp [matchToks, ih, beq_iff_eq, And.comm]

lemma eq_concat_iff (s xs : Str) (c : Char) :
    s = xs ++ [c] ↔ s.getLast? = some c ∧ s.dropLast = xs := by
  constructor
  · rintro rfl
    exact ⟨List.getLast?_concat _, List.dropLast_concat⟩
  · rintro ⟨h1, h2⟩
    have hne : s ≠ [] := by rintro rfl; simp at h1
    have h3 := List.dropLast_append_getLast hne
    have h4 := List.getLast?_eq_getLast s hne
    rw [h4, Option.some_inj] at h1
    rw [← h3, h2, h1]

lemma reFullMatch_true_iff (ts : List Tok) (s : Str) :
    reFullMatch ts s = true ↔
      matchToks ts s = true ∨ (s.getLast? = some '\n' ∧ matchToks ts s.dropLast = true) := by
  simp [reFullMatch]

lemma reFullMatch_lits (xs s : Str) :
    reFullMatch (xs.map Tok.lit) s = true ↔ s = xs ∨ s = xs ++ ['\n'] := by
  rw [reFullMatch_true_iff, matchToks_lits, matchToks_lits, eq_concat_iff]

lemma globToks_no_wild (p : Str) (h1 : '*' ∉ p) (h2 : '?' ∉ p) :
    globToks p = p.map Tok.lit := by
  induction p with
  | nil => rfl
  | cons c rest ih =>
    rw [gt_lit c rest (fun h => h1 (h ▸ List.mem_cons_self c rest))
      (fun h => h2 (h ▸ List.mem_cons_self c rest)), List.map_cons,
      ih (fun h => h1 (List.mem_cons_of_mem _ h)) (fun h => h2 (List.mem_cons_of_mem _ h))]

lemma matchToks_anyAll_of_no_newline (f : Str) (h : '\n' ∉ f) :
    matchToks [Tok.anyAll] f = true := by
  simp only [matchToks]
  rw [List.any_eq_true]
  refine ⟨f.length, List.mem_range.mpr (Nat.lt_succ_self _), ?_⟩
  rw [List.take_length, List.drop_length]
  simp only [matchToks, List.isEmpty_nil, Bool.and_true]
  rw [List.all_eq_true]
  intro c hc
  simp only [Bool.not_eq_true']
  exact beq_eq_false_iff_ne.mpr (fun hceq => h (hceq ▸ hc))

lemma accepts_push_newline (p s : Str) (h1 : s.getLast? ≠ some '\n')
    (h2 : accepts p s = true) : accepts p (s ++ ['\n']) = true := by
  rw [accepts_eq] at h2 ⊢
  rw [reFullMatch_true_iff] at h2 ⊢
  rcases h2 with hm | ⟨hl, _⟩
  · exact Or.inr ⟨List.getLast?_concat _, by rwa [List.dropLast_concat]⟩
  · exact absurd hl h1

/-! ### Lemmas about the frontmatter extractor and the rule matcher -/

lemma parseLoop_mem : ∀ (lines : List Str) (inp : Bool) (p : Str), p ∈ parseLoop lines inp →
    ∃ line ∈ lines, startsWithDash (stripWS line) = true ∧ p = extractPattern (stripWS line) := by
  intro lines
  induction lines with
  | nil => intro inp p hp; simp [parseLoop] at hp
  | cons line rest ih =>
    intro inp p hp
    simp only [parseLoop] at hp
    split_ifs at hp with hA hB hC hD
    · simp at hp
    · obtain ⟨l, hl, hd, he⟩ := ih true p hp
      exact ⟨l, List.mem_cons_of_mem _ hl, hd, he⟩
    · rcases List.mem_cons.mp hp with h | h
      · exact ⟨line, List.mem_cons_self _ _, (Bool.and_eq_true _ _ |>.mp hC).2, h⟩
      · obtain ⟨l, hl, hd, he⟩ := ih inp p h
        exact ⟨l, List.mem_cons_of_mem _ hl, hd, he⟩
    · simp at hp
    · obtain ⟨l, hl, hd, he⟩ := ih inp p hp
      exact ⟨l, List.mem_cons_of_mem _ hl, hd, he⟩

lemma findClose_eq_dropWhile (lines : List Str) :
    findClose lines =
      (match lines.dropWhile (fun l => !(stripWS l == "---".data)) with
       | [] => none
       | _ :: after => some after) := by
  induction lines with
  | nil => rfl
  | cons l rest ih =>
    by_cases h : stripWS l = "---".data
    · simp [findClose, h, List.dropWhile_cons]
    · simp only [findClose, if_neg h, List.dropWhile_cons]
      rw [if_pos (by simp [h])]
      exact ih

lemma strip_frontmatter_spec (content : Str) : strip_frontmatter content = specStripFM content := by
  unfold strip_frontmatter specStripFM
  cases splitLines content with
  | nil => rfl
  | cons first rest =>
    dsimp only
    by_cases h : stripWS first = "---".data
    · rw [if_pos h, if_pos h, findClose_eq_dropWhile]
      cases rest.dropWhile (fun l => !(stripWS l == "---".data)) <;> rfl
    · rw [if_neg h, if_neg h]

lemma match_rules_names (changed : List Str) :
    ∀ (rules : List (Str × Str)) (x : Str × Str), x ∈ match_rules changed rules →
      x.1 ∈ rules.map Prod.fst := by
  intro rules
  induction rules with
  | nil => intro x hx; simp [match_rules] at hx
  | cons r rest ih =>
    intro x hx
    obtain ⟨name, content⟩ := r
    simp only [match_rules] at hx
    split_ifs at hx with h1 h2
    · exact List.mem_cons_of_mem _ (ih x hx)
    · rcases List.mem_cons.mp hx with h | h
      · rw [h]
        exact List.mem_cons_self _ _
      · exact List.mem_cons_of_mem _ (ih x h)
    · exact List.mem_cons_of_mem _ (ih x hx)

lemma match_rules_mem_iff (changed : List Str) :
    ∀ (rules : List (Str × Str)) (name content : Str), (name, content) ∈ rules →
      (rules.map Prod.fst).Nodup →
      ((name, strip_frontmatter content) ∈ match_rules changed rules ↔
        (parse_frontmatter_paths content ≠ [] ∧
          ∃ p ∈ parse_frontmatter_paths content, ∃ f ∈ changed, accepts p f = true)) := by
  intro rules
  induction rules with
  | nil => intro name content h; simp at h
  | cons r rest ih =>
    intro name content hmem hnd
    obtain ⟨n0, c0⟩ := r
    rw [List.map_cons, List.nodup_cons] at hnd
    obtain ⟨hn0, hndr⟩ := hnd
    rcases List.mem_cons.mp hmem with hhead | htail
    · obtain ⟨rfl, rfl⟩ := Prod.mk.injEq .. ▸ hhead
      simp only [match_rules]
      split_ifs with h1 h2
      · constructor
        · intro hmem'
          exact absurd (match_rules_names changed rest _ hmem') hn0
        · rintro ⟨hne, _⟩
          exact absurd (List.isEmpty_iff.mp h1) hne
      · refine iff_of_true (List.mem_cons_self _ _) ?_
        rw [List.any_eq_true] at h2
        obtain ⟨p, hp, hf⟩ := h2
        rw [List.any_eq_true] at hf
        obtain ⟨f, hfmem, hacc⟩ := hf
        exact ⟨List.ne_nil_of_mem hp, p, hp, f, hfmem, hacc⟩
      · refine iff_of_false ?_ ?_
        · intro hmem'
          exact absurd (match_rules_names changed rest _ hmem') hn0
        · rintro ⟨-, p, hp, f, hfmem, hacc⟩
          exact h2 (List.any_eq_true.mpr ⟨p, hp, List.any_eq_true.mpr ⟨f, hfmem, hacc⟩⟩)
    · have hname : name ∈ rest.map Prod.fst :=
        List.mem_map.mpr ⟨(name, content), htail, rfl⟩
      have hne0 : name ≠ n0 := fun h => hn0 (h ▸ hname)
      simp only [match_rules]
      split_ifs with h1 h2
      · exact ih name content htail hndr
      · rw [List.mem_cons]
        constructor
        · rintro (heq | hmem')
          · exact absurd (congrArg Prod.fst heq) (by simpa using hne0)
          · exact (ih name content htail hndr).mp hmem'
        · intro hr
          exact Or.inr ((ih name content htail hndr).mpr hr)
      · exact ih name content htail hndr

/-! ### The claims -/

/-- C1: a rule document (with distinct file names in the listing) is
included in the result of `match_rules` if and only if it declares at
least one glob pattern and some declared pattern's compiled matcher
accepts some changed file; in particular a document with zero declared
patterns is never included (the right-hand side is then false). -/
theorem claimC1_match_iff (changed : List Str) (rules : List (Str × Str)) (name content : Str)
    (hmem : (name, content) ∈ rules) (hnd : (rules.map Prod.fst).Nodup) :
    ((name, strip_frontmatter content) ∈ match_rules changed rules ↔
      (parse_frontmatter_paths content ≠ [] ∧
        ∃ p ∈ parse_frontmatter_paths content, ∃ f ∈ changed, accepts p f = true)) :=
  match_rules_mem_iff changed rules name content hmem hnd

/-- C1 witness: a concrete one-document listing whose pattern list is
nonempty and matches a changed file is included. -/
theorem claimC1_witness :
    ( "r1".data, strip_frontmatter "---\npaths:\n  - \"*.md\"\n---\nBody".data) ∈
      match_rules [ "README.md".data ]
        [( "r1".data, "---\npaths:\n  - \"*.md\"\n---\nBody".data)] :=
  (claimC1_match_iff [ "README.md".data ]
    [( "r1".data, "---\npaths:\n  - \"*.md\"\n---\nBody".data)]
    "r1".data "---\npaths:\n  - \"*.md\"\n---\nBody".data
    (by decide) (by decide)).mpr (by decide)

/-- C2 counterexample: the wildcard-free pattern `b` also accepts the
candidate `b` followed by a newline, a string different from `b`, so the
matcher does not reject every candidate other than the pattern itself. -/
theorem claimC2_counterexample :
    ('*' ∉ "b".data ∧ '?' ∉ "b".data) ∧ "b\n".data ≠ "b".data ∧
      accepts "b".data "b\n".data = true := by decide

/-- C2 amended: for a wildcard-free pattern the compiled matcher accepts
exactly the string equal to the pattern and that string followed by one
trailing newline (the Python dollar anchor also matches just before a
final newline), and rejects every other candidate. -/
theorem claimC2_wildcard_free (p : Str) (h1 : '*' ∉ p) (h2 : '?' ∉ p) (s : Str) :
    accepts p s = true ↔ s = p ∨ s = p ++ [ '\n' ] := by
  rw [accepts_eq, globToks_no_wild p h1 h2, reFullMatch_lits]

/-- C2 witness: the wildcard-free pattern `ab` accepts `ab`. -/
theorem claimC2_witness : accepts "ab".data "ab".data = true :=
  (claimC2_wildcard_free "ab".data (by decide) (by decide) "ab".data).mpr (Or.inl rfl)

/-- C3 counterexample: the pattern `**` compiles to dot-star, and a dot
in Python `re` does not match a newline, so the candidate containing an
interior newline is rejected: `**` does not accept every path string. -/
theorem claimC3_counterexample : accepts "**".data "a\nb".data = false := by decide

/-- C3 amended: the matcher for the pattern `**` accepts every candidate
path string that contains no newline character. -/
theorem claimC3_no_newline (f : Str) (h : '\n' ∉ f) : accepts "**".data f = true := by
  rw [accepts_eq, show globToks "**".data = [Tok.anyAll] from rfl, reFullMatch_true_iff]
  exact Or.inl (matchToks_anyAll_of_no_newline f h)

/-- C3 witness: `**` accepts the newline-free path `a/b.c`. -/
theorem claimC3_witness : accepts "**".data "a/b.c".data = true :=
  claimC3_no_newline "a/b.c".data (by decide)

/-- C4: the matcher for `**/config.yml` accepts `config.yml` (zero
directories) and `a/b/config.yml` (two directories) and rejects
`config.yml.bak`. -/
theorem claimC4_double_star_slash :
    accepts "**/config.yml".data "config.yml".data = true ∧
    accepts "**/config.yml".data "a/b/config.yml".data = true ∧
    accepts "**/config.yml".data "config.yml.bak".data = false := by decide

/-- C5: the matcher for `*.md` accepts `rules.md` and rejects both
`a/rules.md` (the star does not cross a slash) and `rules.md.bak`. -/
theorem claimC5_single_star :
    accepts "*.md".data "rules.md".data = true ∧
    accepts "*.md".data "a/rules.md".data = false ∧
    accepts "*.md".data "rules.md.bak".data = false := by decide

/-- C6 counterexample: on the list-item line with doubled quotes the
code strips every leading and trailing quote (Python `str.strip` with a
character set), yielding `a`, while the claimed single-layer trim would
yield a quoted `a`; the two extractions differ. -/
theorem claimC6_counterexample :
    parse_frontmatter_paths "---\npaths:\n  - \"\"a\"\"\n---\n".data = [ [ 'a' ] ] ∧
    oneLayerQuoteTrim (stripWS ((stripWS "  - \"\"a\"\"".data).drop 2)) = [ '"', 'a', '"' ] ∧
    ([ 'a' ] : Str) ≠ [ '"', 'a', '"' ] := by decide

/-- C6 amended: every pattern returned by `parse_frontmatter_paths`
comes from a stripped list-item line of the document by stripping the
two-character marker, stripping surrounding whitespace, then removing
ALL leading and trailing double-quote characters and then ALL leading
and trailing single-quote characters (each end independently). -/
theorem claimC6_pattern_extraction (content p : Str)
    (hp : p ∈ parse_frontmatter_paths content) :
    ∃ line ∈ splitLines content, startsWithDash (stripWS line) = true ∧
      p = pyStripChar '\x27' (pyStripChar '"' (stripWS ((stripWS line).drop 2))) := by
  unfold parse_frontmatter_paths at hp
  rcases hsl : splitLines content with _ | ⟨first, rest⟩
  · rw [hsl] at hp
    simp at hp
  · rw [hsl] at hp
    dsimp only at hp
    split_ifs at hp with h
    · obtain ⟨line, hl, hd, he⟩ := parseLoop_mem rest false p hp
      exact ⟨line, List.mem_cons_of_mem _ hl, hd, he⟩
    · simp at hp

/-- C6 witness: the single pattern of a concrete document is obtained
from its list-item line by the amended extraction. -/
theorem claimC6_witness :
    ∃ line ∈ splitLines "---\npaths:\n  - x\n---\n".data,
      startsWithDash (stripWS line) = true ∧
        ("x".data : Str) = pyStripChar '\x27' (pyStripChar '"' (stripWS ((stripWS line).drop 2))) :=
  claimC6_pattern_extraction "---\npaths:\n  - x\n---\n".data "x".data (by decide)

/-- C7 counterexample: a line equal to `paths:` is non-empty, does not
start with the list marker and is not the closing delimiter, yet it does
not end collection: the pattern `b` from a later line is still returned,
both at the loop level and for a whole document. -/
theorem claimC7_counterexample :
    stripWS "paths:".data ≠ [] ∧ startsWithDash (stripWS "paths:".data) = false ∧
    stripWS "paths:".data ≠ "---".data ∧
    parseLoop [ "paths:".data, "  - b".data ] true = [ [ 'b' ] ] ∧
    parse_frontmatter_paths "---\npaths:\n  - a\npaths:\n  - b\n---\n".data =
      [ [ 'a' ], [ 'b' ] ] := by decide

/-- C7 amended: while collecting, a non-empty stripped line that does
not start with the list marker, is not the closing delimiter and is not
the paths key stops the scan: no pattern from this or any later line is
returned (a line equal to the paths key instead keeps collecting). -/
theorem claimC7_terminator (line : Str) (rest : List Str)
    (h1 : stripWS line ≠ []) (h2 : startsWithDash (stripWS line) = false)
    (h3 : stripWS line ≠ "---".data) (h4 : stripWS line ≠ "paths:".data) :
    parseLoop (line :: rest) true = [] := by
  simp only [parseLoop, if_neg h3, if_neg h4]
  rw [if_neg (by simp [h2]), if_pos (by simp [h2, h1, List.isEmpty_iff])]

/-- C7 witness: a concrete non-empty, non-item, non-delimiter, non-key
line stops the scan even with a later list item present. -/
theorem claimC7_witness : parseLoop [ " other: x".data, "  - c".data ] true = [] :=
  claimC7_terminator " other: x".data [ "  - c".data ]
    (by decide) (by decide) (by decide) (by decide)

/-- C8: `strip_frontmatter` agrees with the specification-side
description `specStripFM` on every document: when the first stripped
line is the delimiter and a later line strips to the delimiter, the
result is the join of the lines strictly after the first such closing
line with leading newlines removed; otherwise (and when the first line
is not the delimiter) the original text is returned unchanged. -/
theorem claimC8_strip_frontmatter (content : Str) :
    strip_frontmatter content = specStripFM content :=
  strip_frontmatter_spec content

/-- C9: for every input pattern the translation produces a regular
expression in the emitted fragment that the regex compiler model accepts
(the translation itself is a total function, so it terminates and never
raises). -/
theorem claimC9_always_compiles (p : Str) : ∃ ts, compileRe (glob_to_regex p) = some ts :=
  ⟨globToks p, compileRe_glob p⟩

/-- C10 counterexample: `a` followed by one newline is accepted by the
matcher for the pattern `a`, but appending one further trailing newline
is rejected, so acceptance is not preserved by appending a newline. -/
theorem claimC10_counterexample :
    accepts "a".data "a\n".data = true ∧
      accepts "a".data ("a\n".data ++ [ '\n' ]) = false := by decide

/-- C10 amended: for a candidate that does not already end with a
newline, acceptance is preserved by appending exactly one trailing
newline (the dollar anchor also matches just before a final newline). -/
theorem claimC10_trailing_newline (p s : Str) (h1 : s.getLast? ≠ some '\n')
    (h2 : accepts p s = true) : accepts p (s ++ [ '\n' ]) = true :=
  accepts_push_newline p s h1 h2

/-- C10 witness: the empty pattern accepts the empty string, hence also
the one-character newline string. -/
theorem claimC10_witness : accepts [] ([] ++ [ '\n' ]) = true :=
  claimC10_trailing_newline [] [] (by decide) (by decide)

end MatchRules
